import Mathlib

/-!
A shallow embedding of the astisub TypeScript subtitle library
(`src/utils/duration.ts`, `src/utils/html.ts`, `src/utils/scanner.ts`,
`src/utils/helpers.ts`, `src/subtitles.ts`, `src/formats/srt.ts`) in Lean 4,
together with theorems checking the natural-language specification against it.

Strings are modelled as `List Char` (`Str`).  JavaScript `number` timestamps
are modelled as `ℤ` (all claim-relevant paths compute on integers); the one
operation whose behaviour on non-integers/non-finite values is load-bearing,
`applyLinearCorrection`, is additionally modelled over `JSNum`, rationals
extended with `NaN`/`±Infinity`.
-/

/-- Strings are modelled as lists of characters. -/
abbrev Str := List Char

deriving instance DecidableEq for Except

/-- The non-breaking space character ` `. -/
def nbspChar : Char := Char.ofNat 160

/-- The apostrophe character `'`. -/
def aposChar : Char := Char.ofNat 39

/-- The byte-order-mark character `﻿`. -/
def bomChar : Char := Char.ofNat 0xFEFF

/-- JavaScript whitespace (as recognised by `trim`, `\s`, `parseInt`):
space, tab, line feed, carriage return, vertical tab, form feed,
non-breaking space, BOM. -/
def isJsSpace (c : Char) : Bool :=
  c = ' ' || c = '\t' || c = '\n' || c = '\r' || c = Char.ofNat 11 ||
  c = Char.ofNat 12 || c = nbspChar || c = bomChar

/-- JavaScript `String.prototype.trim`. -/
def jsTrim (s : Str) : Str :=
  ((s.dropWhile isJsSpace).reverse.dropWhile isJsSpace).reverse

/-- JavaScript `String.prototype.trimEnd`. -/
def jsTrimEnd (s : Str) : Str :=
  (s.reverse.dropWhile isJsSpace).reverse

/-- JavaScript `String.prototype.toLowerCase` (ASCII range, which is all the
format names use). -/
def jsToLower (s : Str) : Str := s.map Char.toLower

/-- Numeric value of a list of decimal digit characters, most significant
first (the accumulator form used to give meaning to digit strings). -/
def charsVal (s : Str) : ℕ := s.foldl (fun a c => 10 * a + (c.toNat - 48)) 0

/-- Model of `parseLeadingDigits s`: the JavaScript `parseInt` digit phase — consume
the maximal run of leading decimal digits; `none` (`NaN`) if there is none. -/
def parseLeadingDigits (s : Str) : Option ℕ :=
  let ds := s.takeWhile Char.isDigit
  if ds.isEmpty then none else some (charsVal ds)

/-- JavaScript `parseInt(s, 10)`: skip leading whitespace, optional sign,
then a maximal run of decimal digits; `none` models `NaN`. -/
def jsParseInt (s : Str) : Option ℤ :=
  match s.dropWhile isJsSpace with
  | [] => (parseLeadingDigits []).map (fun n => (n : ℤ))
  | c :: rest =>
    if c = '-' then (parseLeadingDigits rest).map (fun n => -(n : ℤ))
    else if c = '+' then (parseLeadingDigits rest).map (fun n => (n : ℤ))
    else (parseLeadingDigits (c :: rest)).map (fun n => (n : ℤ))

/-- Decimal digit characters of a natural number, most significant first
(the `toString` of a non-negative JavaScript number); fuel-based so that it
reduces definitionally. -/
def natDigitsAux : ℕ → ℕ → List Char
  | 0, _ => []
  | fuel + 1, n =>
    if n < 10 then [Char.ofNat (48 + n)]
    else natDigitsAux fuel (n / 10) ++ [Char.ofNat (48 + n % 10)]

/-- Decimal digit characters of a natural number, most significant first. -/
def natDigits (n : ℕ) : List Char := natDigitsAux (n + 1) n

/-- JavaScript `Number.prototype.toString()` for integer values. -/
def intToChars (i : ℤ) : Str :=
  if i < 0 then '-' :: natDigits (-i).toNat else natDigits i.toNat

/-- JavaScript `String.prototype.padStart(len, c)`. -/
def padStart (len : ℕ) (c : Char) (s : Str) : Str :=
  List.replicate (len - s.length) c ++ s

/-- JavaScript `String.prototype.split(sep)` for a single-character
separator. -/
def splitOnChar (sep : Char) : Str → List Str
  | [] => [[]]
  | c :: cs =>
    if c = sep then [] :: splitOnChar sep cs
    else
      match splitOnChar sep cs with
      | [] => [[c]]
      | l :: ls => (c :: l) :: ls

/-- JavaScript `Array.prototype.join(sep)` for a single-character
separator. -/
def joinWithChar (sep : Char) : List Str → Str
  | [] => []
  | [l] => l
  | l :: ls => l ++ sep :: joinWithChar sep ls

/-- JavaScript `s.split(sep)` for a multi-character separator `sep`
(non-overlapping, leftmost-first); fuel-based recursion on the length of
`s`. -/
def splitOnStrAux (sep : Str) : ℕ → Str → List Str
  | 0, s => [s]
  | _ + 1, [] => [[]]
  | fuel + 1, c :: cs =>
    if sep.isPrefixOf (c :: cs) then
      [] :: splitOnStrAux sep fuel ((c :: cs).drop sep.length)
    else
      match splitOnStrAux sep fuel cs with
      | [] => [[c]]
      | l :: ls => (c :: l) :: ls

/-- JavaScript `s.split(sep)` for a non-empty multi-character separator. -/
def splitOnStr (sep : Str) (s : Str) : List Str :=
  splitOnStrAux sep s.length s

/-- The expression `s.split(/\s+/)[0]` applied to an already-trimmed string: the first
whitespace-delimited token. -/
def firstToken (s : Str) : Str := s.takeWhile (fun c => !isJsSpace c)

/-! ## `src/utils/scanner.ts` -/

/-- Split on `\r\n`, `\r` or `\n` (the regex alternation is leftmost-first,
so `\r\n` counts as one separator). -/
def splitNewlines : Str → List Str
  | [] => [[]]
  | '\r' :: '\n' :: rest => [] :: splitNewlines rest
  | '\r' :: rest => [] :: splitNewlines rest
  | '\n' :: rest => [] :: splitNewlines rest
  | c :: rest =>
    match splitNewlines rest with
    | [] => [[c]]
    | l :: ls => (c :: l) :: ls

/-- Model of `splitLines` from `scanner.ts`: split the text on any newline style and
drop a trailing empty segment. -/
def splitLines (text : Str) : List Str :=
  let lines := splitNewlines text
  if lines.getLast? = some [] then lines.dropLast else lines

/-! ## `src/utils/helpers.ts` -/

/-- Model of `removeBOM` from `helpers.ts`. -/
def removeBOM (text : Str) : Str :=
  match text with
  | c :: rest => if c = bomChar then rest else text
  | [] => text

/-! ## `src/utils/html.ts` -/

/-- The escape of a single character under `escapeHTML`'s replacement map
(`&` → `&amp;`, `<` → `&lt;`, ` ` → `&nbsp;`). -/
def escapeChar (c : Char) : Str :=
  if c = '&' then ['&', 'a', 'm', 'p', ';']
  else if c = '<' then ['&', 'l', 't', ';']
  else if c = nbspChar then ['&', 'n', 'b', 's', 'p', ';']
  else [c]

/-- Model of `escapeHTML`: a single left-to-right pass replacing `&`, `<` and
non-breaking space by their entity forms. -/
def escapeHTML (s : Str) : Str := s.flatMap escapeChar

/-- The tail of one recognised entity after its leading `&`: returns the
replacement character and the remaining input.  The regex alternatives
`amp|lt|gt|quot|nbsp|#39|#x27` are mutually exclusive, so matching them in
order is faithful. -/
def unescapeEnt : Str → Option (Char × Str)
  | 'a' :: 'm' :: 'p' :: ';' :: rest => some ('&', rest)
  | 'l' :: 't' :: ';' :: rest => some ('<', rest)
  | 'g' :: 't' :: ';' :: rest => some ('>', rest)
  | 'q' :: 'u' :: 'o' :: 't' :: ';' :: rest => some ('"', rest)
  | 'n' :: 'b' :: 's' :: 'p' :: ';' :: rest => some (nbspChar, rest)
  | '#' :: '3' :: '9' :: ';' :: rest => some (aposChar, rest)
  | '#' :: 'x' :: '2' :: '7' :: ';' :: rest => some (aposChar, rest)
  | _ => none

/-- Left-to-right entity replacement scan; each step consumes at least one
character, so a fuel of the input length is always enough. -/
def unescapeAux : ℕ → Str → Str
  | 0, s => s
  | _ + 1, [] => []
  | fuel + 1, c :: cs =>
    if c = '&' then
      match unescapeEnt cs with
      | some (r, rest) => r :: unescapeAux fuel rest
      | none => c :: unescapeAux fuel cs
    else c :: unescapeAux fuel cs

/-- Model of `unescapeHTML`: replaces the recognised entities
`&amp; &lt; &gt; &quot; &nbsp; &#39; &#x27;` by their literal characters in a
left-to-right scan; everything else passes through. -/
def unescapeHTML (s : Str) : Str := unescapeAux s.length s

/-! ## `src/utils/duration.ts` -/

/-- Model of `parseDuration(input, millisecondSep, numberOfMillisecondDigits)`.
Failure (`throw`) is `Except.error`; a `NaN` result (possible only through
the four-segment branch, whose fourth segment is not `isNaN`-checked in the
source) is `Except.ok none`.  The millisecond scaling multiplies by
`10 ^ (numberOfMillisecondDigits - msStr.length)`; the exponent is a natural
subtraction, which matches `Math.pow` whenever the provided digit count is
at most the configured one (the only case the repository's callers, who pass
2 or 3 against a checked length of at most 3 digits after a separator the
formatters emit, can reach with an integral result).

The millisecond phase: split off and scale the last segment. -/
def parseMsSegment (parts : List Str) (millisecondSep : Char)
    (numberOfMillisecondDigits : ℕ) : Except Str (Option ℤ × Str) :=
  let msStr := jsTrim (parts.getLast?.getD [])
  if msStr.length > 3 then .error ("ms digits".toList)
  else
    match jsParseInt msStr with
    | none => .error ("ms parse".toList)
    | some ms =>
      .ok (some (ms * 10 ^ (numberOfMillisecondDigits - msStr.length)),
        joinWithChar millisecondSep parts.dropLast)

/-- The hours/minutes/seconds phase of `parseDuration`: dispatch on the
number of colon-separated segments (2 → minutes:seconds; 3 → h:m:s;
4 → h:m:s with the fourth segment overriding the milliseconds). -/
def parseTimeParts (timeParts : List Str) (milliseconds : Option ℤ) :
    Except Str (Option ℤ × Option ℤ × Option ℤ × Option ℤ) :=
  if timeParts.length = 2 then
    .ok (some (0 : ℤ), jsParseInt (jsTrim (timeParts.getD 0 [])),
      jsParseInt (jsTrim (timeParts.getD 1 [])), milliseconds)
  else if timeParts.length = 3 then
    .ok (jsParseInt (jsTrim (timeParts.getD 0 [])), jsParseInt (jsTrim (timeParts.getD 1 [])),
      jsParseInt (jsTrim (timeParts.getD 2 [])), milliseconds)
  else if timeParts.length = 4 then
    .ok (jsParseInt (jsTrim (timeParts.getD 0 [])), jsParseInt (jsTrim (timeParts.getD 1 [])),
      jsParseInt (jsTrim (timeParts.getD 2 [])), jsParseInt (jsTrim (timeParts.getD 3 [])))
  else .error ("no hms".toList)

/-- Model of `parseDuration(input, millisecondSep, numberOfMillisecondDigits)`
continued: combine the parsed fields; a `NaN` in hours/minutes/seconds
throws, a `NaN` milliseconds (the unchecked fourth segment) propagates as
`none`. -/
def combineDuration (hms : Option ℤ × Option ℤ × Option ℤ × Option ℤ) :
    Except Str (Option ℤ) :=
  match hms with
  | (some h, some m, some s, milliseconds) =>
    .ok (milliseconds.map (fun ms => ms + s * 1000 + m * 60 * 1000 + h * 60 * 60 * 1000))
  | _ => .error ("bad hms".toList)

def parseDurationParts (parts : List Str) (input : Str) (millisecondSep : Char)
    (numberOfMillisecondDigits : ℕ) : Except Str (Option ℤ) :=
  match (if parts.length ≥ 2 then
      parseMsSegment parts millisecondSep numberOfMillisecondDigits
    else .ok (some 0, input) : Except Str (Option ℤ × Str)) with
  | .error e => .error e
  | .ok (milliseconds, timeString) =>
    match parseTimeParts (splitOnChar ':' (jsTrim timeString)) milliseconds with
    | .error e => .error e
    | .ok hms => combineDuration hms

def parseDuration (input : Str) (millisecondSep : Char)
    (numberOfMillisecondDigits : ℕ) : Except Str (Option ℤ) :=
  parseDurationParts (splitOnChar millisecondSep input) input millisecondSep
    numberOfMillisecondDigits

/-- Model of `formatDuration(duration, millisecondSep, numberOfMillisecondDigits)`.
`Math.floor(x / y)` on integers is `Int.fdiv`; JavaScript `%` is `Int.tmod`.
The source recomputes `remaining` from `duration` (not from the previous
remainder) for the seconds and milliseconds steps; this is mirrored.  The
millisecond divisor is `10 ^ (3 - digits)` with natural subtraction, which
matches `Math.pow` for the digit counts (≤ 3) in use. -/
def formatDuration (duration : ℤ) (millisecondSep : Char)
    (numberOfMillisecondDigits : ℕ) : Str :=
  let hours : ℤ := Int.fdiv duration (60 * 60 * 1000)
  let remaining1 : ℤ := Int.tmod duration (60 * 60 * 1000)
  let minutes : ℤ := Int.fdiv remaining1 (60 * 1000)
  let remaining2 : ℤ := Int.tmod duration (60 * 1000)
  let seconds : ℤ := Int.fdiv remaining2 1000
  let remaining3 : ℤ := Int.tmod duration 1000
  let ms : ℤ := Int.fdiv remaining3 ((10 : ℤ) ^ (3 - numberOfMillisecondDigits))
  padStart 2 '0' (intToChars hours) ++ ':' ::
    padStart 2 '0' (intToChars minutes) ++ ':' ::
    padStart 2 '0' (intToChars seconds) ++ millisecondSep ::
    padStart numberOfMillisecondDigits '0' (intToChars ms)


/-! ## The unified model (`src/types.ts`) -/

/-- Model of `StyleAttributes` (the SRT-relevant fields; all optional). -/
structure StyleAttributes where
  srtBold : Option Bool := none
  srtItalics : Option Bool := none
  srtUnderline : Option Bool := none
  srtColor : Option Str := none
  srtPosition : Option ℤ := none
deriving DecidableEq

/-- Model of `LineItem`: a contiguous run of text sharing one style context.  The
shared-`Style` reference is modelled by its string id. -/
structure LineItem where
  text : Str
  inlineStyle : Option StyleAttributes := none
  style : Option Str := none
  startAt : Option ℤ := none
deriving DecidableEq

/-- Model of `Line`: a sequence of `LineItem`s plus an optional voice name. -/
structure Line where
  items : List LineItem
  voiceName : Option Str := none
deriving DecidableEq

/-- Model of `Item`: one subtitle cue.  Timestamps are milliseconds (`ℤ`); the
shared `Style`/`Region` references are modelled by their string ids. -/
structure Item where
  comments : Option (List Str) := none
  index : Option ℤ := none
  endAt : ℤ
  inlineStyle : Option StyleAttributes := none
  lines : List Line
  region : Option Str := none
  startAt : ℤ
  style : Option Str := none
deriving DecidableEq

/-- Model of `Region`: a named attribute bundle with an optional linked style id. -/
structure Region where
  id : Str
  style : Option Str := none
deriving DecidableEq

/-- Model of `Style`: a named attribute bundle. -/
structure Style where
  id : Str
deriving DecidableEq

/-- Model of `Subtitles`: the root aggregate.  The `Map`s are modelled as
association lists keyed by id. -/
structure Subtitles where
  items : List Item := []
  regions : List (Str × Region) := []
  styles : List (Str × Style) := []
deriving DecidableEq

/-- Model of `Subtitles.create()`. -/
def Subtitles.create : Subtitles := {}

/-! ## Timeline engine (`src/subtitles.ts`) -/

/-- Model of `lineToString(line)`: concatenation of the `LineItem` texts. -/
def lineToString (line : Line) : Str := (line.items.map LineItem.text).flatten

/-- Model of `itemToString(item)`: the rendered text of an item, lines joined by
`" - "`. -/
def itemToString (item : Item) : Str :=
  List.intercalate (' ' :: '-' :: ' ' :: []) (item.lines.map lineToString)

/-- One step of `add`: shift both timestamps by `duration`, drop the item
when both shifted bounds are `≤ 0`, otherwise clamp a negative start to 0.
(The source's forward `splice` loop treats each item independently.) -/
def addItem (duration : ℤ) (item : Item) : Option Item :=
  let shifted := {item with startAt := item.startAt + duration, endAt := item.endAt + duration}
  if shifted.endAt ≤ 0 ∧ shifted.startAt ≤ 0 then none
  else if shifted.startAt < 0 then some {shifted with startAt := 0}
  else some shifted

/-- Model of `add(subtitles, duration)`. -/
def add (subtitles : Subtitles) (duration : ℤ) : Subtitles :=
  {subtitles with items := subtitles.items.filterMap (addItem duration)}

/-- Model of `getDuration(subtitles)`: 0 when empty, else the last item's `endAt`. -/
def getDuration (subtitles : Subtitles) : ℤ :=
  match subtitles.items.getLast? with
  | none => 0
  | some item => item.endAt

/-- The clip step of `forceDuration`'s scan: an item whose `endAt` exceeds
the duration has it clipped. -/
def clipToDuration (duration : ℤ) (item : Item) : Item :=
  if item.endAt > duration then {item with endAt := duration} else item

/-- The dummy item `forceDuration` appends: `[duration-1, duration]` with
the single line `"..."`. -/
def dummyItem (duration : ℤ) : Item :=
  {startAt := duration - 1, endAt := duration,
   lines := [{items := [{text := ['.', '.', '.']}]}]}

/-- The kept item list of `forceDuration`'s truncating scan: the source
clips `endAt` for items starting before the target and truncates the list
at the first item whose `startAt` reaches the target — i.e. the `takeWhile`
prefix is kept, clipped. -/
def forceKept (subtitles : Subtitles) (duration : ℤ) : List Item :=
  (subtitles.items.takeWhile (fun it => it.startAt < duration)).map
    (clipToDuration duration)

/-- The state of `forceDuration` after its clipping/truncating phase: when
the current duration exceeds the target the kept clipped prefix replaces
the items, otherwise nothing changes. -/
def forceClipped (subtitles : Subtitles) (duration : ℤ) : Subtitles :=
  if getDuration subtitles > duration then {subtitles with items := forceKept subtitles duration}
  else subtitles

/-- Appending the dummy item. -/
def appendDummy (subtitles : Subtitles) (duration : ℤ) : Subtitles :=
  {subtitles with items := subtitles.items ++ [dummyItem duration]}

/-- Model of `forceDuration(subtitles, duration, addDummyItem)`. -/
def forceDuration (subtitles : Subtitles) (duration : ℤ) (addDummyItem : Bool) : Subtitles :=
  if getDuration subtitles = duration then subtitles
  else if addDummyItem ∧ getDuration (forceClipped subtitles duration) < duration then
    appendDummy (forceClipped subtitles duration) duration
  else forceClipped subtitles duration

/-- Model of `order(subtitles)`: stable sort of the items by `startAt` (JavaScript's
`sort` with comparator `a.startAt - b.startAt` is a stable ascending sort;
a stable sort's output is unique, so insertion sort reproduces it.  The
source's early return on fewer than two items yields the same result). -/
def order (subtitles : Subtitles) : Subtitles :=
  {subtitles with items := subtitles.items.insertionSort (fun a b => a.startAt ≤ b.startAt)}

/-- One item of `fragment`'s inner scan: an item straddling the window
start is split there; otherwise one straddling the window end is split
there; the source inserts the new front part before the (truncated)
original and skips both. -/
def splitWindow (fragmentStart fragmentEnd : ℤ) (item : Item) : List Item :=
  if item.startAt < fragmentStart ∧ item.endAt > fragmentStart then
    [{item with endAt := fragmentStart}, {item with startAt := fragmentStart}]
  else if item.startAt < fragmentEnd ∧ item.endAt > fragmentEnd then
    [{item with endAt := fragmentEnd}, {item with startAt := fragmentEnd}]
  else [item]

/-- One pass of `fragment`'s while-loop body over the whole item list. -/
def fragmentPass (fragmentStart fragmentEnd : ℤ) (items : List Item) : List Item :=
  items.flatMap (splitWindow fragmentStart fragmentEnd)

/-- The number of iterations of `fragment`'s while-loop: `fragmentStart`
steps through `0, w, 2w, …` while `fragmentStart < lastItemEnd`, so for
positive `w` and `E` there are `⌈E / w⌉` passes.  (For non-positive `w`
with `0 < E` the source loop does not terminate; the model performs no
passes there.) -/
def passCount (w E : ℤ) : ℕ :=
  if 0 < w ∧ 0 < E then (E.toNat + w.toNat - 1) / w.toNat else 0

/-- The window-pass while-loop of `fragment` for a captured last end `E`,
followed by the final `order`. -/
def fragmentCore (subtitles : Subtitles) (w E : ℤ) : Subtitles :=
  let fragmented :=
    (List.range (passCount w E)).foldl
      (fun its k => fragmentPass ((k : ℤ) * w) ((k : ℤ) * w + w) its)
      subtitles.items
  order {subtitles with items := fragmented}

/-- Model of `fragment(subtitles, fragmentDuration)`: repeatedly split items at the
window boundaries, then `order`.  `lastItemEnd` is captured once, from the
item that is last before any splitting. -/
def fragment (subtitles : Subtitles) (fragmentDuration : ℤ) : Subtitles :=
  match subtitles.items.getLast? with
  | none => subtitles
  | some lastItem => fragmentCore subtitles fragmentDuration lastItem.endAt

/-- Model of `isEmpty(subtitles)`. -/
def isEmpty (subtitles : Subtitles) : Bool := subtitles.items.isEmpty

/-- The inner loop of `unfragment` for a fixed outer item: scan the later
items; absorb one whose rendered text matches and whose interval
overlaps-or-touches (extending `endAt` to the maximum), stop at the first
gap, and keep (skip over) any other item. -/
def unfragInner (cur : Item) : List Item → Item × List Item
  | [] => (cur, [])
  | x :: xs =>
    if itemToString cur = itemToString x ∧ cur.endAt ≥ x.startAt then
      unfragInner {cur with endAt := if cur.endAt < x.endAt then x.endAt else cur.endAt} xs
    else if cur.endAt < x.startAt then (cur, x :: xs)
    else
      let (c, rest) := unfragInner cur xs
      (c, x :: rest)

/-- The outer loop of `unfragment`: each step runs the inner loop for the
current head; fuel bounded by the list length (each step emits one item). -/
def unfragOuter : ℕ → List Item → List Item
  | 0, its => its
  | _ + 1, [] => []
  | fuel + 1, x :: xs =>
    let (c, rest) := unfragInner x xs
    c :: unfragOuter fuel rest

/-- Model of `unfragment(subtitles)`: `order` first, then merge consecutive items
with identical rendered text and touching intervals. -/
def unfragment (subtitles : Subtitles) : Subtitles :=
  if subtitles.items.length ≤ 1 then subtitles
  else
    let ordered := (order subtitles).items
    {subtitles with items := unfragOuter ordered.length ordered}

/-! ## JavaScript numbers for `applyLinearCorrection`

`applyLinearCorrection` divides without guarding against a zero denominator,
so its behaviour on `NaN`/`±Infinity` is load-bearing; its timestamps are
modelled as rationals extended with the three non-finite values.  (Finite
IEEE-754 rounding is not modelled; it never turns a finite value
non-finite or vice versa, which is all the theorems below use.) -/

/-- A JavaScript number: a finite rational, `NaN`, `Infinity` or
`-Infinity`. -/
inductive JSNum where
  | fin : ℚ → JSNum
  | nan : JSNum
  | inf : JSNum
  | ninf : JSNum
deriving DecidableEq

/-- Subtraction of JavaScript numbers. -/
def JSNum.sub : JSNum → JSNum → JSNum
  | nan, _ => nan
  | _, nan => nan
  | fin a, fin b => fin (a - b)
  | fin _, inf => ninf
  | fin _, ninf => inf
  | inf, fin _ => inf
  | inf, inf => nan
  | inf, ninf => inf
  | ninf, fin _ => ninf
  | ninf, inf => ninf
  | ninf, ninf => nan

/-- Addition of JavaScript numbers. -/
def JSNum.add : JSNum → JSNum → JSNum
  | nan, _ => nan
  | _, nan => nan
  | fin a, fin b => fin (a + b)
  | fin _, inf => inf
  | fin _, ninf => ninf
  | inf, fin _ => inf
  | inf, inf => inf
  | inf, ninf => nan
  | ninf, fin _ => ninf
  | ninf, inf => nan
  | ninf, ninf => ninf

/-- Multiplication of JavaScript numbers. -/
def JSNum.mul : JSNum → JSNum → JSNum
  | nan, _ => nan
  | _, nan => nan
  | fin a, fin b => fin (a * b)
  | fin a, inf => if 0 < a then inf else if a < 0 then ninf else nan
  | inf, fin a => if 0 < a then inf else if a < 0 then ninf else nan
  | fin a, ninf => if 0 < a then ninf else if a < 0 then inf else nan
  | ninf, fin a => if 0 < a then ninf else if a < 0 then inf else nan
  | inf, inf => inf
  | inf, ninf => ninf
  | ninf, inf => ninf
  | ninf, ninf => inf

/-- Division of JavaScript numbers (division by the zero produced by an
integer subtraction is division by `+0`). -/
def JSNum.div : JSNum → JSNum → JSNum
  | nan, _ => nan
  | _, nan => nan
  | fin a, fin b =>
    if b = 0 then (if 0 < a then inf else if a < 0 then ninf else nan)
    else fin (a / b)
  | fin _, inf => fin 0
  | fin _, ninf => fin 0
  | inf, fin b => if 0 ≤ b then inf else ninf
  | ninf, fin b => if 0 ≤ b then ninf else inf
  | inf, inf => nan
  | inf, ninf => nan
  | ninf, inf => nan
  | ninf, ninf => nan

/-- Flooring of JavaScript numbers: floors a finite value, fixes the
non-finite ones. -/
def JSNum.jsFloor : JSNum → JSNum
  | fin a => fin (⌊a⌋ : ℚ)
  | x => x

/-- Whether a JavaScript number is finite (neither `NaN` nor `±Infinity`). -/
def JSNum.isFinite : JSNum → Bool
  | fin _ => true
  | _ => false

/-- An `Item` as seen by `applyLinearCorrection`: timestamps are arbitrary
JavaScript numbers. -/
structure JSItem where
  startAt : JSNum
  endAt : JSNum
  lines : List Line := []
deriving DecidableEq

/-- Model of `applyLinearCorrection(subtitles, actual1, desired1, actual2, desired2)`:
solve `a = (desired2-desired1)/(actual2-actual1)`, `b = desired1 - a*actual1`
(the division is unguarded) and map every timestamp through
`Math.floor(a*x + b)`. -/
def applyLinearCorrection (items : List JSItem)
    (actual1 desired1 actual2 desired2 : JSNum) : List JSItem :=
  let a := (desired2.sub desired1).div (actual2.sub actual1)
  let b := desired1.sub (a.mul actual1)
  items.map (fun it =>
    {it with startAt := ((a.mul it.startAt).add b).jsFloor,
             endAt := ((a.mul it.endAt).add b).jsFloor})

/-! ## Errors (`src/types.ts`) -/

/-- The thrown errors: `InvalidExtensionError`, `NoSubtitlesToWriteError`,
and plain `new Error(message)`. -/
inductive JsError where
  | invalidExtension
  | noSubtitlesToWrite
  | jsError (msg : Str)
deriving DecidableEq

/-! ## SRT codec (`src/formats/srt.ts`) -/

/-- The local `parseSRTDuration` of `srt.ts`: try the separators `,`, `.`,
`:` in order; the first parse that does not throw wins. -/
def parseSRTDuration (input : Str) : Except JsError (Option ℤ) :=
  match parseDuration input ',' 3 with
  | .ok v => .ok v
  | .error _ =>
    match parseDuration input '.' 3 with
    | .ok v => .ok v
    | .error _ =>
      match parseDuration input ':' 3 with
      | .ok v => .ok v
      | .error _ => .error (.jsError ("Failed to parse SRT duration".toList))

/-- Model of `formatSRTDuration` of `srt.ts`. -/
def formatSRTDuration (duration : ℤ) : Str := formatDuration duration ',' 3

/-- A match of the tag regex `<\/?([a-z]+)(?:\s+([^>]+))?>` (flag `i`):
closing slash, lowercased tag name, optional attribute text. -/
structure SrtTag where
  isClosing : Bool
  name : Str
  attrs : Option Str
deriving DecidableEq

/-- Try to match the tag regex at the head of the input; on success return
the tag and the input after the match.  After the maximal letter run, the
optional `\s+[^>]+` group matches the run `M` of non-`>` characters up to a
mandatory `>` exactly when `M` starts with whitespace and (after the greedy
whitespace run backtracks just enough) leaves a non-empty attribute part. -/
def tryTagAt : Str → Option (SrtTag × Str)
  | '<' :: rest0 =>
    let closing : Bool := match rest0 with
      | '/' :: _ => true
      | _ => false
    let rest1 := match rest0 with
      | '/' :: r => r
      | r => r
    let letters := rest1.takeWhile Char.isAlpha
    if letters.isEmpty then none
    else
      let rest2 := rest1.drop letters.length
      match rest2 with
      | '>' :: r => some ({isClosing := closing, name := jsToLower letters, attrs := none}, r)
      | c :: _ =>
        if isJsSpace c then
          let m := rest2.takeWhile (fun ch => ch ≠ '>')
          match rest2.drop m.length with
          | '>' :: r =>
            let wsRun := m.takeWhile isJsSpace
            if wsRun.length < m.length then
              some ({isClosing := closing, name := jsToLower letters,
                     attrs := some (m.drop wsRun.length)}, r)
            else if 2 ≤ m.length then
              some ({isClosing := closing, name := jsToLower letters,
                     attrs := some (m.drop (m.length - 1))}, r)
            else none
          | _ => none
        else none
      | [] => none
  | _ => none

/-- One step of `tagRegex.exec`: the leftmost match — the text before it, the tag, and
the text after it. -/
def findTag : Str → Option (Str × SrtTag × Str)
  | [] => none
  | c :: cs =>
    match tryTagAt (c :: cs) with
    | some (tag, rest) => some ([], tag, rest)
    | none =>
      match findTag cs with
      | some (pre, tag, rest) => some (c :: pre, tag, rest)
      | none => none

/-- The attribute regex `color\s*=\s*["']([^"']+)["']` (flag `i`) tried at
the head of the input. -/
def tryColorAt (s : Str) : Option Str :=
  if jsToLower (s.take 5) = "color".toList then
    match (s.drop 5).dropWhile isJsSpace with
    | '=' :: r2 =>
      match r2.dropWhile isJsSpace with
      | q :: r4 =>
        if q = '"' ∨ q = aposChar then
          let v := r4.takeWhile (fun c => !(c == '"' || c == aposChar))
          if v.isEmpty then none
          else
            match r4.drop v.length with
            | q2 :: _ => if q2 = '"' ∨ q2 = aposChar then some v else none
            | [] => none
        else none
      | [] => none
    | _ => none
  else none

/-- The call `attributes.match(colorRegex)`: leftmost match of the attribute regex. -/
def findColorAttr : Str → Option Str
  | [] => none
  | c :: cs =>
    match tryColorAt (c :: cs) with
    | some v => some v
    | none => findColorAttr cs

/-- The style update performed for one matched tag in `parseSRTText`. -/
def applySrtTag (tag : SrtTag) (cur : StyleAttributes) : StyleAttributes :=
  if tag.isClosing then
    if tag.name = "b".toList then {cur with srtBold := some false}
    else if tag.name = "i".toList then {cur with srtItalics := some false}
    else if tag.name = "u".toList then {cur with srtUnderline := some false}
    else if tag.name = "font".toList then {cur with srtColor := none}
    else cur
  else
    if tag.name = "b".toList then {cur with srtBold := some true}
    else if tag.name = "i".toList then {cur with srtItalics := some true}
    else if tag.name = "u".toList then {cur with srtUnderline := some true}
    else if tag.name = "font".toList then
      match tag.attrs with
      | some attrs =>
        match findColorAttr attrs with
        | some c => {cur with srtColor := some c}
        | none => cur
      | none => cur
    else cur

/-- The truthiness test
`currentStyle.srtBold || currentStyle.srtItalics || currentStyle.srtUnderline
|| currentStyle.srtColor` (a set colour is truthy when non-empty). -/
def styleTruthy (s : StyleAttributes) : Bool :=
  s.srtBold == some true || s.srtItalics == some true ||
  s.srtUnderline == some true ||
  (match s.srtColor with | some c => !c.isEmpty | none => false)

/-- A run of text between tags becomes one `LineItem` (unescaped), carrying
a snapshot of the running style when any attribute is truthy. -/
def srtEmitText (style : StyleAttributes) (acc : List LineItem) (text : Str) :
    List LineItem :=
  if (jsTrim text).isEmpty then acc
  else acc ++ [{text := unescapeHTML text,
                inlineStyle := if styleTruthy style then some style else none}]

/-- The `tagRegex.exec` while-loop of `parseSRTText`; fuel bounded by the
input length (each found tag consumes at least one character). -/
def srtTextLoop : ℕ → StyleAttributes → List LineItem → Str →
    List LineItem × StyleAttributes
  | 0, style, acc, text => (srtEmitText style acc text, style)
  | fuel + 1, style, acc, s =>
    match findTag s with
    | none => (srtEmitText style acc s, style)
    | some (pre, tag, rest) =>
      srtTextLoop fuel (applySrtTag tag style) (srtEmitText style acc pre) rest

/-- Model of `parseSRTText(input, styleAttrs)`: a whitespace-only line yields one
empty-text item; otherwise the tag scan (note the source copies
`styleAttrs` into a local `currentStyle`, so updates never flow back to the
caller). -/
def parseSRTText (input : Str) (styleAttrs : StyleAttributes) : Line :=
  if (jsTrim input).isEmpty then {items := [{text := []}]}
  else {items := (srtTextLoop (input.length + 1) styleAttrs [] input).1}

/-- The test `lastLine.items.length === 0 || lastLine.items.every(item => !item.text)`:
a line is trailing-blank when every item's text is empty (vacuously so for
no items). -/
def lineAllEmpty (l : Line) : Bool := l.items.all (fun li => li.text.isEmpty)

/-- The trailing-blank-line trimming loop. -/
def dropTrailingEmptyLines (ls : List Line) : List Line :=
  (ls.reverse.dropWhile lineAllEmpty).reverse

/-- The running state of `readFromSRT`'s scanner loop. -/
structure SrtState where
  items : List Item
  cur : Item
  styleAttrs : StyleAttributes
  lineNum : ℕ
deriving DecidableEq

/-- The test `line.includes(sep)`: whether `sep` occurs as a contiguous subsequence. -/
def containsSeq (sep : Str) : Str → Bool
  | [] => sep.isEmpty
  | c :: cs => sep.isPrefixOf (c :: cs) || containsSeq sep cs

/-- The boundary token `'-->'`. -/
def srtSep : Str := "-->".toList

/-- One iteration of `readFromSRT`'s while-loop, for one scanned line.
A `NaN` duration (an unparseable fourth colon segment, which the source
stores into the item without a check) is modelled as a parse failure. -/
def srtProcessLine (st : SrtState) (rawLine : Str) : Except JsError SrtState := do
  let line := jsTrim rawLine
  let lineNum := st.lineNum + 1
  if containsSeq srtSep line then
    let indexText :=
      match st.cur.lines.getLast? with
      | some lastLine => (lastLine.items.map LineItem.text).flatten
      | none => []
    let curLines :=
      if st.cur.lines.length > 0 ∧ indexText ≠ [] then st.cur.lines.dropLast
      else st.cur.lines
    let curLines := dropTrailingEmptyLines curLines
    let items :=
      if curLines ≠ [] ∨ st.cur.startAt > 0 then
        st.items ++ [{st.cur with lines := curLines}]
      else st.items
    let index : Option ℤ := if indexText ≠ [] then jsParseInt indexText else none
    let parts := splitOnStr srtSep line
    if parts.length < 2 then
      throw (JsError.jsError ("time boundaries has too few elements".toList))
    let startTime := jsTrim (parts.getD 0 [])
    let startAt ←
      match parseSRTDuration startTime with
      | Except.ok (some v) => pure v
      | Except.ok none => throw (JsError.jsError ("NaN start time".toList))
      | Except.error _ => throw (JsError.jsError ("failed to parse start time".toList))
    let endTime := firstToken (jsTrim (parts.getD 1 []))
    let endAt ←
      match parseSRTDuration endTime with
      | Except.ok (some v) => pure v
      | Except.ok none => throw (JsError.jsError ("NaN end time".toList))
      | Except.error _ => throw (JsError.jsError ("failed to parse end time".toList))
    pure {items := items,
          cur := {startAt := startAt, endAt := endAt, index := index, lines := []},
          styleAttrs := {}, lineNum := lineNum}
  else
    let parsedLine := parseSRTText line st.styleAttrs
    let cur :=
      if parsedLine.items.length > 0 then
        {st.cur with lines := st.cur.lines ++ [parsedLine]}
      else st.cur
    pure {st with cur := cur, lineNum := lineNum}

/-- Model of `readFromSRT(content)`. -/
def readFromSRT (content : Str) : Except JsError Subtitles := do
  let st0 : SrtState :=
    {items := [], cur := {startAt := 0, endAt := 0, lines := []},
     styleAttrs := {}, lineNum := 0}
  let stF ← (splitLines (removeBOM content)).foldlM srtProcessLine st0
  let items :=
    if stF.cur.lines ≠ [] ∨ stF.cur.startAt > 0 then
      stF.items ++ [{stF.cur with lines := dropTrailingEmptyLines stF.cur.lines}]
    else stF.items
  pure {Subtitles.create with items := items}

/-- Model of `lineItemToSRTString(item)`: opening tags in the fixed order
font→b→i→u (plus the `{\anN}` position prefix), the escaped text, then the
closing tags in reverse order. -/
def lineItemToSRTString (item : LineItem) : Str :=
  let color := match item.inlineStyle with
    | some st => (match st.srtColor with | some c => if c.isEmpty then none else some c | none => none)
    | none => none
  let bold := match item.inlineStyle with
    | some st => st.srtBold == some true
    | none => false
  let italic := match item.inlineStyle with
    | some st => st.srtItalics == some true
    | none => false
  let underline := match item.inlineStyle with
    | some st => st.srtUnderline == some true
    | none => false
  let position := match item.inlineStyle with
    | some st => (match st.srtPosition with | some p => if p = 0 then none else some p | none => none)
    | none => none
  let fontOpen := match color with
    | some c => "<font color=".toList ++ '"' :: c ++ '"' :: '>' :: []
    | none => []
  let posOpen := match position with
    | some p => Char.ofNat 123 :: '\\' :: 'a' :: 'n' :: intToChars p ++ [Char.ofNat 125]
    | none => []
  fontOpen ++ (if bold then "<b>".toList else []) ++
    (if italic then "<i>".toList else []) ++
    (if underline then "<u>".toList else []) ++ posOpen ++
    escapeHTML item.text ++
    (if underline then "</u>".toList else []) ++
    (if italic then "</i>".toList else []) ++
    (if bold then "</b>".toList else []) ++
    (match color with | some _ => "</font>".toList | none => [])

/-- Model of `lineToSRTString(line)`. -/
def lineToSRTString (line : Line) : Str :=
  (line.items.map lineItemToSRTString).flatten ++ ['\n']

/-- The per-item output of `writeToSRT`'s loop, with 1-based index `i`. -/
def writeItemsSRT : ℕ → List Item → Str
  | _, [] => []
  | i, item :: rest =>
    natDigits (i + 1) ++ '\n' ::
      (formatSRTDuration item.startAt ++ ' ' :: srtSep ++ ' ' :: formatSRTDuration item.endAt) ++
      '\n' :: ((item.lines.map lineToSRTString).flatten ++ '\n' :: writeItemsSRT (i + 1) rest)

/-- Model of `writeToSRT(subtitles)`: BOM, the renumbered cue blocks, trailing
whitespace trimmed back to a single final newline; throws on an empty item
sequence. -/
def writeToSRT (subtitles : Subtitles) : Except JsError Str :=
  if subtitles.items.isEmpty then .error (.jsError ("No subtitles to write".toList))
  else .ok (jsTrimEnd (bomChar :: writeItemsSRT 0 subtitles.items) ++ ['\n'])

/-! ## Unified entry points (`src/subtitles.ts`) -/

/-- The format name `'srt'`. -/
def srtName : Str := "srt".toList

/-- Model of `readFromString(content, format)`: dispatch on the lowercased format
name; only `'srt'` is routed (the other formats are commented out in the
source), everything else throws `InvalidExtensionError`. -/
def readFromString (content : Str) (format : Str) : Except JsError Subtitles :=
  if jsToLower format = srtName then readFromSRT content
  else .error .invalidExtension

/-- Model of `writeToString(subtitles, format)`: an empty item sequence throws
`NoSubtitlesToWriteError`; then dispatch on the lowercased format name;
only `'srt'` is routed, everything else throws `InvalidExtensionError`. -/
def writeToString (subtitles : Subtitles) (format : Str) : Except JsError Str :=
  if subtitles.items.isEmpty then .error .noSubtitlesToWrite
  else if jsToLower format = srtName then writeToSRT subtitles
  else .error .invalidExtension

/-! ## Shared concrete-input helpers -/

/-- A single plain text line. -/
def lineT (t : Str) : Line := {items := [{text := t}]}

/-- An item with one plain text line. -/
def itemT (s e : ℤ) (t : Str) : Item := {startAt := s, endAt := e, lines := [lineT t]}

/-- A subtitles value carrying the given items and nothing else. -/
def subsOf (its : List Item) : Subtitles := {items := its}

/-! ## Claims -/

/-- C8: the SRT input `"1\n00:01:00,000 --> 00:02:00,000\nHello World\n"`
parses to exactly one item with `startAt = 60000`, `endAt = 120000`, one
line with one line item of text `"Hello World"` (and the cue index 1 read
from the first line). -/
theorem C8_readFromSRT_hello_world :
    readFromSRT ("1\n00:01:00,000 --> 00:02:00,000\nHello World\n").toList =
      Except.ok (subsOf [{itemT 60000 120000 ("Hello World").toList with index := some 1}]) := by
  decide

/-- C6 counterexample: `add(subs, -2000)` on a sole item `[1000, 3000)`
does *not* drop the item — the shifted end is `1000 > 0`, so the item
survives (with its start clamped to 0), contradicting the claim that both
bounds end up `≤ 0`. -/
theorem C6_counterexample :
    (add (subsOf [itemT 1000 3000 ['x']]) (-2000)).items ≠ [] := by
  decide

/-- C6 amended: `add(subs, -2000)` on a sole item `[1000, 3000)` yields
`[0, 1000)` (the end shifts to `1000 > 0`, so the item is kept and its
negative start is clamped to 0); on a sole item `[1000, 5000)` it yields
`[0, 3000)`. -/
theorem C6_add_shift_results :
    (add (subsOf [itemT 1000 3000 ['x']]) (-2000)).items = [itemT 0 1000 ['x']] ∧
    (add (subsOf [itemT 1000 5000 ['x']]) (-2000)).items = [itemT 0 3000 ['x']] := by
  decide

/-- C3 counterexample: the format name `'webvtt'` is *not* dispatched to a
codec — both entry points throw `InvalidExtensionError` on it (the WebVTT
cases in the dispatchers are commented out in the source), even on a
non-empty subtitles value. -/
theorem C3_counterexample :
    readFromString ['x'] ("webvtt").toList = Except.error JsError.invalidExtension ∧
    writeToString (subsOf [itemT 0 1000 ['x']]) ("webvtt").toList =
      Except.error JsError.invalidExtension := by
  decide

/-- C3 amended: `writeToString` fails with `NoSubtitlesToWriteError`
exactly on an empty item sequence, succeeds when non-empty and the
lowercased format name is `'srt'`, and fails with `InvalidExtensionError`
when non-empty and the name is anything else (including `'webvtt'`);
`readFromString` dispatches to the SRT codec exactly when the lowercased
name is `'srt'` and fails with `InvalidExtensionError` on every other
name. -/
theorem C3_dispatch (content format : Str) (subs : Subtitles) :
    (subs.items = [] → writeToString subs format = Except.error JsError.noSubtitlesToWrite) ∧
    (subs.items ≠ [] → jsToLower format = srtName →
      ∃ s, writeToString subs format = Except.ok s) ∧
    (subs.items ≠ [] → jsToLower format ≠ srtName →
      writeToString subs format = Except.error JsError.invalidExtension) ∧
    (jsToLower format = srtName → readFromString content format = readFromSRT content) ∧
    (jsToLower format ≠ srtName →
      readFromString content format = Except.error JsError.invalidExtension) := by
  unfold writeToString readFromString
  rcases subs with ⟨items, regions, styles⟩
  cases items with
  | nil =>
    refine ⟨fun _ => by simp, fun h => absurd rfl h, fun h => absurd rfl h, ?_, ?_⟩ <;>
      intro h <;> simp [h]
  | cons a l =>
    refine ⟨fun h => by simp at h, fun _ h => ?_, fun _ h => ?_, fun h => by simp [h], fun h => by simp [h]⟩
    · simp only [writeToSRT, h, List.isEmpty_cons, if_true, Bool.false_eq_true, if_false]
      exact ⟨_, rfl⟩
    · simp [h]

/-- C3 witness. -/
theorem C3_dispatch_witness :
    readFromString ['x'] ("ttml").toList = Except.error JsError.invalidExtension :=
  (C3_dispatch ['x'] ("ttml").toList (subsOf [])).2.2.2.2 (by decide)

/-- C1 counterexample: with two configured millisecond digits the codec
inverse law fails — `formatDuration(5, '.', 2)` is `"00:00:00.00"`, which
parses back to `0`, not `5`; and the parse scales a provided millisecond
segment by `10 ^ (configuredDigits - digitsProvided)`, not
`10 ^ (3 - digitsProvided)`: `"00:00:00.5"` with 2 configured digits parses
to `5 * 10 = 50`, where the claimed rule would give `500`. -/
theorem C1_counterexample :
    parseDuration (formatDuration 5 '.' 2) '.' 2 = Except.ok (some 0) ∧ (0 : ℤ) ≠ 5 ∧
    parseDuration ("00:00:00.5").toList '.' 2 = Except.ok (some 50) ∧ (50 : ℤ) ≠ 500 := by
  refine ⟨by decide, by decide, by decide, by decide⟩

/-! ### Support lemmas about `getDuration` and the timeline operations -/

/-- If every item ends by `d ≥ 0`, the duration is at most `d`. -/
theorem getDuration_le {subs : Subtitles} {d : ℤ} (hd : 0 ≤ d)
    (h : ∀ it ∈ subs.items, it.endAt ≤ d) : getDuration subs ≤ d := by
  unfold getDuration
  cases hl : subs.items.getLast? with
  | none => exact hd
  | some it => exact h it (List.mem_of_mem_getLast? hl)

/-- If every item ends at or after `0`, the duration is non-negative. -/
theorem getDuration_nonneg {subs : Subtitles}
    (h : ∀ it ∈ subs.items, 0 ≤ it.endAt) : 0 ≤ getDuration subs := by
  unfold getDuration
  cases hl : subs.items.getLast? with
  | none => exact le_refl 0
  | some it => exact h it (List.mem_of_mem_getLast? hl)

/-- The duration of a subtitles value whose items end with `x` is
`x.endAt`. -/
theorem getDuration_append (l : List Item) (x : Item) {subs : Subtitles}
    (h : subs.items = l ++ [x]) : getDuration subs = x.endAt := by
  unfold getDuration
  rw [h, List.getLast?_concat]

/-- A clipped item ends at or before the clip duration. -/
theorem clipToDuration_endAt_le (d : ℤ) (item : Item) :
    (clipToDuration d item).endAt ≤ d ∨ (clipToDuration d item).endAt = item.endAt := by
  unfold clipToDuration
  split
  · exact Or.inl (le_refl d)
  · exact Or.inr rfl

/-- C10: for every subtitles value and every target `≥ 0`,
`forceDuration(subs, target, true)` forces `getDuration` to exactly
`target`: overlong content is clipped/truncated and, when still short, a
dummy item ending exactly at `target` is appended. -/
theorem C10_forceDuration_exact (subs : Subtitles) (target : ℤ) (ht : 0 ≤ target) :
    getDuration (forceDuration subs target true) = target := by
  have hle : getDuration (forceClipped subs target) ≤ target := by
    unfold forceClipped
    split
    · refine getDuration_le ht ?_
      intro it hit
      simp only [forceKept, List.mem_map] at hit
      obtain ⟨x, _, rfl⟩ := hit
      unfold clipToDuration
      split
      · exact le_refl target
      · omega
    · omega
  unfold forceDuration
  by_cases h1 : getDuration subs = target
  · simp [h1]
  · rw [if_neg h1]
    by_cases h2 : getDuration (forceClipped subs target) < target
    · rw [if_pos ⟨rfl, h2⟩]
      exact getDuration_append (forceClipped subs target).items (dummyItem target) rfl
    · rw [if_neg (fun hc => h2 hc.2)]
      omega

/-- C10 witness. -/
theorem C10_forceDuration_witness :
    getDuration (forceDuration (subsOf [itemT 0 500 ['x']]) 300 true) = 300 :=
  C10_forceDuration_exact (subsOf [itemT 0 500 ['x']]) 300 (by norm_num)

/-- Both parts produced by a window split lie inside the original item's
interval. -/
theorem splitWindow_sub {fs fe : ℤ} {item it : Item} (h : it ∈ splitWindow fs fe item) :
    item.startAt ≤ it.startAt ∧ it.endAt ≤ item.endAt := by
  unfold splitWindow at h
  split at h
  · rename_i hc
    simp only [List.mem_cons, List.not_mem_nil, or_false] at h
    rcases h with rfl | rfl
    · exact ⟨le_refl _, le_of_lt hc.2⟩
    · exact ⟨le_of_lt hc.1, le_refl _⟩
  · split at h
    · rename_i hc
      simp only [List.mem_cons, List.not_mem_nil, or_false] at h
      rcases h with rfl | rfl
      · exact ⟨le_refl _, le_of_lt hc.2⟩
      · exact ⟨le_of_lt hc.1, le_refl _⟩
    · simp only [List.mem_singleton] at h
      subst h
      exact ⟨le_refl _, le_refl _⟩

/-- A window split of an item with non-negative timestamps at non-negative
boundaries produces items with non-negative timestamps. -/
theorem splitWindow_nonneg {fs fe : ℤ} (hfs : 0 ≤ fs) (hfe : 0 ≤ fe) {item it : Item}
    (hitem : 0 ≤ item.startAt ∧ 0 ≤ item.endAt) (h : it ∈ splitWindow fs fe item) :
    0 ≤ it.startAt ∧ 0 ≤ it.endAt := by
  unfold splitWindow at h
  split at h
  · simp only [List.mem_cons, List.not_mem_nil, or_false] at h
    rcases h with rfl | rfl
    · exact ⟨hitem.1, hfs⟩
    · exact ⟨hfs, hitem.2⟩
  · split at h
    · simp only [List.mem_cons, List.not_mem_nil, or_false] at h
      rcases h with rfl | rfl
      · exact ⟨hitem.1, hfe⟩
      · exact ⟨hfe, hitem.2⟩
    · simp only [List.mem_singleton] at h
      subst h
      exact hitem

/-- The window-pass fold of `fragment` preserves non-negativity of all
timestamps (the boundaries `k·w` and `k·w + w` are non-negative for
positive `w`). -/
theorem foldl_fragmentPass_nonneg {w : ℤ} (hw : 0 < w) (ks : List ℕ) (its : List Item)
    (h : ∀ it ∈ its, 0 ≤ it.startAt ∧ 0 ≤ it.endAt) :
    ∀ it ∈ ks.foldl
      (fun its k => fragmentPass ((k : ℤ) * w) ((k : ℤ) * w + w) its) its,
      0 ≤ it.startAt ∧ 0 ≤ it.endAt := by
  induction ks generalizing its with
  | nil => exact h
  | cons k ks ih =>
    refine ih _ ?_
    intro it hit
    unfold fragmentPass at hit
    rw [List.mem_flatMap] at hit
    obtain ⟨x, hx, hmem⟩ := hit
    have hfs : (0 : ℤ) ≤ (k : ℤ) * w := by positivity
    exact splitWindow_nonneg hfs (by omega) (h x hx) hmem

/-- C2 counterexample: with all-non-negative inputs the operations can
still leave negative timestamps.  `applyLinearCorrection` never clamps: the
correction mapping `1000 ↦ 0`, `2000 ↦ 1000` sends the item `[0, 500)` to
`[-1000, -500)`.  And `add` keeps an item whose shifted `endAt` is negative
whenever its shifted `startAt` stays positive: `add(-600)` on the
(malformed but non-negative) item `[1000, 500)` yields `[400, -100)`. -/
theorem C2_counterexample :
    applyLinearCorrection [{startAt := JSNum.fin 0, endAt := JSNum.fin 500}]
        (JSNum.fin 1000) (JSNum.fin 0) (JSNum.fin 2000) (JSNum.fin 1000) =
      [{startAt := JSNum.fin (-1000), endAt := JSNum.fin (-500)}] ∧
    (add (subsOf [itemT 1000 500 ['x']]) (-600)).items = [itemT 400 (-100) ['x']] := by
  constructor
  · simp only [applyLinearCorrection, JSNum.sub, JSNum.div, JSNum.mul, JSNum.add,
      JSNum.jsFloor, List.map_cons, List.map_nil]
    norm_num
  · decide

/-- C2 amended: on a subtitles value whose items all have non-negative
`startAt` and `endAt`, `fragment` (any positive window) and `forceDuration`
(any arguments) leave no negative timestamp, and `add` (any delta) leaves
none provided every item also satisfies `endAt ≥ startAt`.
(`applyLinearCorrection` performs no clamping; see the counterexample.) -/
theorem C2_nonneg_preserved (subs : Subtitles)
    (h : ∀ it ∈ subs.items, 0 ≤ it.startAt ∧ 0 ≤ it.endAt) :
    (∀ delta : ℤ, (∀ it ∈ subs.items, it.startAt ≤ it.endAt) →
      ∀ it ∈ (add subs delta).items, 0 ≤ it.startAt ∧ 0 ≤ it.endAt) ∧
    (∀ w : ℤ, 0 < w →
      ∀ it ∈ (fragment subs w).items, 0 ≤ it.startAt ∧ 0 ≤ it.endAt) ∧
    (∀ (target : ℤ) (dummy : Bool),
      ∀ it ∈ (forceDuration subs target dummy).items,
        0 ≤ it.startAt ∧ 0 ≤ it.endAt) := by
  refine ⟨?_, ?_, ?_⟩
  · intro delta hwf it hit
    unfold add at hit
    simp only [List.mem_filterMap] at hit
    obtain ⟨x, hx, hsome⟩ := hit
    simp only [addItem] at hsome
    have hx2 := hwf x hx
    split at hsome
    · exact absurd hsome (by simp)
    · split at hsome
      · rename_i hboth hneg
        simp only [Option.some.injEq] at hsome
        subst hsome
        constructor
        · exact le_refl 0
        · simp only [not_and, not_le] at hboth
          simp at hneg ⊢
          omega
      · rename_i hboth hneg
        simp only [Option.some.injEq] at hsome
        subst hsome
        simp only [not_lt] at hneg
        simp at hneg ⊢
        omega
  · intro w hw it hit
    unfold fragment at hit
    cases hl : subs.items.getLast? with
    | none => rw [hl] at hit; exact h it hit
    | some lastItem =>
      rw [hl] at hit
      simp only [fragmentCore, order, List.mem_insertionSort] at hit
      exact foldl_fragmentPass_nonneg hw _ _ h it hit
  · intro target dummy it hit
    have hsubs1 : ∀ it ∈ (forceClipped subs target).items,
        0 ≤ it.startAt ∧ 0 ≤ it.endAt := by
      unfold forceClipped
      split
      · intro y hy
        simp only [forceKept, List.mem_map] at hy
        obtain ⟨x, hx, rfl⟩ := hy
        have hx1 : x ∈ subs.items := List.takeWhile_subset _ hx
        have hx2 := h x hx1
        have hx3 : x.startAt < target := by
          have := List.mem_takeWhile_imp hx
          simpa using this
        unfold clipToDuration
        split
        · refine ⟨hx2.1, ?_⟩
          show (0 : ℤ) ≤ target
          omega
        · exact hx2
      · exact h
    unfold forceDuration at hit
    by_cases h1 : getDuration subs = target
    · rw [if_pos h1] at hit
      exact h it hit
    · rw [if_neg h1] at hit
      split at hit
      · rename_i hcond
        unfold appendDummy at hit
        rw [List.mem_append] at hit
        rcases hit with hit | hit
        · exact hsubs1 it hit
        · simp only [List.mem_singleton] at hit
          subst hit
          have hd0 : 0 ≤ getDuration (forceClipped subs target) :=
            getDuration_nonneg (fun y hy => (hsubs1 y hy).2)
          have h2 := hcond.2
          unfold dummyItem
          refine ⟨?_, ?_⟩ <;> simp <;> omega
      · exact hsubs1 it hit

/-- C2 witness. -/
theorem C2_nonneg_witness :
    0 ≤ (itemT 0 5 ['x']).startAt ∧ 0 ≤ (itemT 0 5 ['x']).endAt :=
  (C2_nonneg_preserved (subsOf [itemT 0 5 ['x']]) (by decide)).2.1 1000 (by norm_num)
    (itemT 0 5 ['x']) (by decide)

/-! ### Support lemmas about `JSNum` -/

/-- Subtracting a JavaScript number from itself gives `+0` when finite and `NaN` otherwise. -/
theorem JSNum.sub_self_cases (x : JSNum) :
    x.sub x = JSNum.fin 0 ∨ x.sub x = JSNum.nan := by
  cases x with
  | fin q => exact Or.inl (by simp [JSNum.sub])
  | nan => exact Or.inr rfl
  | inf => exact Or.inr rfl
  | ninf => exact Or.inr rfl

/-- Division by `+0` or by `NaN` never produces a finite value. -/
theorem JSNum.div_nonfinite_den {y : JSNum} (hy : y = JSNum.fin 0 ∨ y = JSNum.nan)
    (x : JSNum) : (x.div y).isFinite = false := by
  rcases hy with rfl | rfl <;> cases x <;>
    simp [JSNum.div, JSNum.isFinite] <;> split_ifs <;> simp [JSNum.isFinite]

/-- A non-finite left factor keeps a product non-finite. -/
theorem JSNum.mul_nonfinite_left {x : JSNum} (hx : x.isFinite = false) (y : JSNum) :
    (x.mul y).isFinite = false := by
  cases x <;> simp [JSNum.isFinite] at hx ⊢ <;> cases y <;>
    simp [JSNum.mul, JSNum.isFinite] <;> split_ifs <;> simp [JSNum.isFinite]

/-- Subtracting a non-finite value never yields a finite one. -/
theorem JSNum.sub_nonfinite_right (x : JSNum) {y : JSNum}
    (hy : y.isFinite = false) : (x.sub y).isFinite = false := by
  cases y <;> simp [JSNum.isFinite] at hy ⊢ <;> cases x <;>
    simp [JSNum.sub, JSNum.isFinite]

/-- The sum of two non-finite values is non-finite. -/
theorem JSNum.add_nonfinite {x y : JSNum} (hx : x.isFinite = false)
    (hy : y.isFinite = false) : (x.add y).isFinite = false := by
  cases x <;> cases y <;> simp [JSNum.isFinite] at hx hy ⊢ <;>
    simp [JSNum.add, JSNum.isFinite]

/-- Flooring preserves non-finiteness. -/
theorem JSNum.jsFloor_nonfinite {x : JSNum} (hx : x.isFinite = false) :
    x.jsFloor.isFinite = false := by
  cases x <;> simp [JSNum.isFinite, JSNum.jsFloor] at hx ⊢

/-- Evaluation of the degenerate correction `0 ↦ 0`, `0 ↦ 0` on the item
`[0, 1)`: the unguarded `0/0` makes every written timestamp `NaN`. -/
theorem applyLC_degenerate_eval :
    applyLinearCorrection [{startAt := JSNum.fin 0, endAt := JSNum.fin 1}]
        (JSNum.fin 0) (JSNum.fin 0) (JSNum.fin 0) (JSNum.fin 0) =
      [{startAt := JSNum.nan, endAt := JSNum.nan}] := by
  simp only [applyLinearCorrection, JSNum.sub, JSNum.div, JSNum.mul, JSNum.add,
    JSNum.jsFloor, List.map_cons, List.map_nil, sub_self]
  norm_num

/-- C7 counterexample: `applyLinearCorrection` with `actual1 == actual2`
does not fail fast — it is a total operation that writes `NaN` timestamps
into the items instead of raising an error. -/
theorem C7_counterexample :
    applyLinearCorrection [{startAt := JSNum.fin 0, endAt := JSNum.fin 1}]
        (JSNum.fin 0) (JSNum.fin 0) (JSNum.fin 0) (JSNum.fin 0) =
      [{startAt := JSNum.nan, endAt := JSNum.nan}] :=
  applyLC_degenerate_eval

/-- C7 amended: for every item list and all arguments with
`actual1 = actual2`, `applyLinearCorrection` raises no error (it is total)
and performs the division unguarded, so every written `startAt` and `endAt`
is non-finite (`NaN` or `±Infinity`). -/
theorem C7_nonfinite_on_degenerate (items : List JSItem) (a1 d1 a2 d2 : JSNum)
    (h : a1 = a2) :
    ∀ it ∈ applyLinearCorrection items a1 d1 a2 d2,
      it.startAt.isFinite = false ∧ it.endAt.isFinite = false := by
  subst h
  intro it hit
  unfold applyLinearCorrection at hit
  simp only [List.mem_map] at hit
  obtain ⟨x, _, rfl⟩ := hit
  have ha : ((d2.sub d1).div (a1.sub a1)).isFinite = false :=
    JSNum.div_nonfinite_den (JSNum.sub_self_cases a1) _
  have hb : (d1.sub (((d2.sub d1).div (a1.sub a1)).mul a1)).isFinite = false :=
    JSNum.sub_nonfinite_right _ (JSNum.mul_nonfinite_left ha a1)
  constructor <;>
    exact JSNum.jsFloor_nonfinite
      (JSNum.add_nonfinite (JSNum.mul_nonfinite_left ha _) hb)

/-- C7 witness. -/
theorem C7_nonfinite_witness :
    (JSItem.startAt {startAt := JSNum.nan, endAt := JSNum.nan}).isFinite = false ∧
    (JSItem.endAt {startAt := JSNum.nan, endAt := JSNum.nan}).isFinite = false :=
  C7_nonfinite_on_degenerate [{startAt := JSNum.fin 0, endAt := JSNum.fin 1}]
    (JSNum.fin 0) (JSNum.fin 0) (JSNum.fin 0) (JSNum.fin 0) rfl
    {startAt := JSNum.nan, endAt := JSNum.nan}
    (by rw [applyLC_degenerate_eval]; exact List.mem_singleton.mpr rfl)

/-! ### The HTML escape round trip -/

/-- On an escaped string, the scan with any sufficient fuel recovers the
original string: every escape of a character is either a full entity
(consumed in one step) or a single non-`&` character. -/
theorem unescape_escape_aux (s : Str) :
    ∀ fuel, (escapeHTML s).length ≤ fuel → unescapeAux fuel (escapeHTML s) = s := by
  induction s with
  | nil =>
    intro fuel _
    cases fuel <;> rfl
  | cons c s ih =>
    intro fuel hfuel
    by_cases hamp : c = '&'
    · subst hamp
      have hesc : escapeHTML ('&' :: s) = '&' :: 'a' :: 'm' :: 'p' :: ';' :: escapeHTML s := rfl
      rw [hesc] at hfuel ⊢
      simp only [List.length_cons] at hfuel
      obtain ⟨f, rfl⟩ : ∃ f, fuel = f + 1 := ⟨fuel - 1, by omega⟩
      show '&' :: unescapeAux f (escapeHTML s) = '&' :: s
      exact congrArg _ (ih f (by omega))
    · by_cases hlt : c = '<'
      · subst hlt
        have hesc : escapeHTML ('<' :: s) = '&' :: 'l' :: 't' :: ';' :: escapeHTML s := rfl
        rw [hesc] at hfuel ⊢
        simp only [List.length_cons] at hfuel
        obtain ⟨f, rfl⟩ : ∃ f, fuel = f + 1 := ⟨fuel - 1, by omega⟩
        show '<' :: unescapeAux f (escapeHTML s) = '<' :: s
        exact congrArg _ (ih f (by omega))
      · by_cases hnb : c = nbspChar
        · subst hnb
          have hesc : escapeHTML (nbspChar :: s) =
              '&' :: 'n' :: 'b' :: 's' :: 'p' :: ';' :: escapeHTML s := rfl
          rw [hesc] at hfuel ⊢
          simp only [List.length_cons] at hfuel
          obtain ⟨f, rfl⟩ : ∃ f, fuel = f + 1 := ⟨fuel - 1, by omega⟩
          show nbspChar :: unescapeAux f (escapeHTML s) = nbspChar :: s
          exact congrArg _ (ih f (by omega))
        · have hesc : escapeHTML (c :: s) = c :: escapeHTML s := by
            show escapeChar c ++ escapeHTML s = c :: escapeHTML s
            simp [escapeChar, hamp, hlt, hnb]
          rw [hesc] at hfuel ⊢
          simp only [List.length_cons] at hfuel
          obtain ⟨f, rfl⟩ : ∃ f, fuel = f + 1 := ⟨fuel - 1, by omega⟩
          have hstep : unescapeAux (f + 1) (c :: escapeHTML s) =
              c :: unescapeAux f (escapeHTML s) := by
            simp only [unescapeAux]
            rw [if_neg hamp]
          rw [hstep]
          exact congrArg _ (ih f (by omega))

/-- C9: `unescapeHTML` is a left inverse of `escapeHTML` on every string —
escaping `&`, `<` and non-breaking space and unescaping recovers the
original exactly, including for inputs that already contain entity-shaped
substrings (their leading `&` is escaped to `&amp;`, and the unescape scan
resumes after each replacement rather than rescanning it). -/
theorem C9_unescape_escape (s : Str) : unescapeHTML (escapeHTML s) = s :=
  unescape_escape_aux s (escapeHTML s).length (le_refl _)

/-! ### Fragment boundaries -/

/-- A window pass at `[b, b+w]` (positive `w`) leaves no item spanning
`b`: an item containing `b` is split at `b` by the first branch; the second
branch's parts start at or after `b`; an unsplit item did not contain `b`. -/
theorem fragmentPass_kills_own {w : ℤ} (hw : 0 < w) (b : ℤ) (its : List Item) :
    ∀ it ∈ fragmentPass b (b + w) its, ¬(it.startAt < b ∧ b < it.endAt) := by
  intro it hit
  unfold fragmentPass at hit
  rw [List.mem_flatMap] at hit
  obtain ⟨x, _, hmem⟩ := hit
  unfold splitWindow at hmem
  split at hmem
  · rename_i hc
    simp only [List.mem_cons, List.not_mem_nil, or_false] at hmem
    rcases hmem with rfl | rfl
    · exact fun hsp => absurd hsp.2 (by simp)
    · exact fun hsp => absurd hsp.1 (by simp)
  · split at hmem
    · rename_i hc1 hc2
      simp only [List.mem_cons, List.not_mem_nil, or_false] at hmem
      rcases hmem with rfl | rfl
      · intro hsp
        simp only [not_and, not_lt] at hc1
        have h1 : x.startAt < b := hsp.1
        have h2 : x.endAt ≤ b := by simpa using hc1 h1
        have h3 : x.endAt > b + w := hc2.2
        omega
      · intro hsp
        have : b + w < b := hsp.1
        omega
    · rename_i hc1 hc2
      simp only [List.mem_singleton] at hmem
      subst hmem
      intro hsp
      exact hc1 ⟨hsp.1, hsp.2⟩

/-- Window passes never create a spanning of a boundary no item spanned
before: every produced part lies inside its originating item. -/
theorem fragmentPass_preserves {b fs fe : ℤ} {its : List Item}
    (h : ∀ it ∈ its, ¬(it.startAt < b ∧ b < it.endAt)) :
    ∀ it ∈ fragmentPass fs fe its, ¬(it.startAt < b ∧ b < it.endAt) := by
  intro it hit hsp
  unfold fragmentPass at hit
  rw [List.mem_flatMap] at hit
  obtain ⟨x, hx, hmem⟩ := hit
  obtain ⟨h1, h2⟩ := splitWindow_sub hmem
  exact h x hx ⟨by omega, by omega⟩

/-- The fold of window passes preserves boundary-non-spanning. -/
theorem foldl_fragmentPass_preserves {w b : ℤ} (ks : List ℕ) (its : List Item)
    (h : ∀ it ∈ its, ¬(it.startAt < b ∧ b < it.endAt)) :
    ∀ it ∈ ks.foldl
      (fun its k => fragmentPass ((k : ℤ) * w) ((k : ℤ) * w + w) its) its,
      ¬(it.startAt < b ∧ b < it.endAt) := by
  induction ks generalizing its with
  | nil => exact h
  | cons k ks ih => exact ih _ (fragmentPass_preserves h)

/-- Once the pass for boundary `kn·w` occurs somewhere in the pass list, no
item of the fold result spans `kn·w`. -/
theorem foldl_fragmentPass_no_span {w : ℤ} (hw : 0 < w) (kn : ℕ) :
    ∀ (ks : List ℕ) (its : List Item), kn ∈ ks →
      ∀ it ∈ ks.foldl
        (fun its k => fragmentPass ((k : ℤ) * w) ((k : ℤ) * w + w) its) its,
        ¬(it.startAt < (kn : ℤ) * w ∧ (kn : ℤ) * w < it.endAt) := by
  intro ks
  induction ks with
  | nil => exact fun its hmem => absurd hmem (List.not_mem_nil kn)
  | cons k ks ih =>
    intro its hmem
    rcases List.mem_cons.mp hmem with rfl | hmem2
    · exact fun it hit =>
        foldl_fragmentPass_preserves ks _
          (fragmentPass_kills_own hw ((kn : ℤ) * w) its) it hit
    · exact fun it hit => ih _ hmem2 it hit

/-- The pass for a boundary `k·w` strictly between `0` and the captured
last end is among the executed passes. -/
theorem boundary_pass_mem {w E : ℤ} (hw : 0 < w) {k : ℤ} (hk0 : 0 < k)
    (hkE : k * w < E) : k.toNat ∈ List.range (passCount w E) := by
  have hE : 0 < E := lt_trans (by positivity) hkE
  have hkc : (k.toNat : ℤ) = k := Int.toNat_of_nonneg hk0.le
  have hwc : (w.toNat : ℤ) = w := Int.toNat_of_nonneg hw.le
  have hEc : (E.toNat : ℤ) = E := Int.toNat_of_nonneg hE.le
  have h2 : k.toNat * w.toNat < E.toNat := by
    have hcast : ((k.toNat * w.toNat : ℕ) : ℤ) < ((E.toNat : ℕ) : ℤ) := by
      push_cast
      rw [hkc, hwc, hEc]
      exact hkE
    exact_mod_cast hcast
  rw [List.mem_range]
  unfold passCount
  rw [if_pos ⟨hw, hE⟩]
  have hwn : 0 < w.toNat := by omega
  have hdiv : k.toNat + 1 ≤ (E.toNat + w.toNat - 1) / w.toNat := by
    rw [Nat.le_div_iff_mul_le hwn, Nat.add_mul, Nat.one_mul]
    generalize k.toNat * w.toNat = a at h2 ⊢
    omega
  omega

/-- C4 counterexample: `fragment` can leave an item spanning a
multiple-of-`windowSize` boundary.  With the (unordered) items
`[0,10000)`, `[0,500)` and window 2000, the loop stops at the *last* item's
end (500) after a single pass, and the split part `[2000,10000)` still
spans the boundary `2·2000 = 4000`. -/
theorem C4_counterexample :
    ∃ it ∈ (fragment (subsOf [itemT 0 10000 ['x'], itemT 0 500 ['y']]) 2000).items,
      it.startAt < 2 * 2000 ∧ 2 * 2000 < it.endAt := by
  decide

/-- C4 amended: for every subtitles value and window `w > 0`, after
`fragment` no item spans a boundary `k·w` with `0 < k·w < E`, where `E` is
the `endAt` of the item that is last in the sequence when `fragment` is
called (the while-loop runs exactly the windows below `E`, and each pass
eliminates every spanning of its own window start while later passes only
shrink intervals). -/
theorem C4_no_spanning_below_lastEnd (subs : Subtitles) (w : ℤ) (hw : 0 < w)
    (lastItem : Item) (hlast : subs.items.getLast? = some lastItem)
    (k : ℤ) (hk1 : 0 < k * w) (hk2 : k * w < lastItem.endAt) :
    ∀ it ∈ (fragment subs w).items, ¬(it.startAt < k * w ∧ k * w < it.endAt) := by
  intro it hit
  unfold fragment at hit
  rw [hlast] at hit
  simp only [fragmentCore, order, List.mem_insertionSort] at hit
  have hk0 : 0 < k := by
    by_contra hle
    push_neg at hle
    nlinarith
  have hcast : ((k.toNat : ℤ)) = k := Int.toNat_of_nonneg hk0.le
  have hres := foldl_fragmentPass_no_span hw k.toNat
    (List.range (passCount w lastItem.endAt)) subs.items
    (boundary_pass_mem hw hk0 hk2) it hit
  rwa [hcast] at hres

/-- C4 witness. -/
theorem C4_no_spanning_witness :
    ¬((itemT 0 2000 ['x']).startAt < 1 * 2000 ∧
      1 * 2000 < (itemT 0 2000 ['x']).endAt) :=
  C4_no_spanning_below_lastEnd (subsOf [itemT 0 4000 ['x']]) 2000 (by norm_num)
    (itemT 0 4000 ['x']) (by decide) 1 (by norm_num) (by decide)
    (itemT 0 2000 ['x']) (by decide)

/-! ### Unfragmenting adjacent fragments -/

/-- When the rendered texts match and the intervals touch, the inner
`unfragment` loop absorbs the next item. -/
theorem unfragInner_cons_merge {cur x : Item} {xs : List Item}
    (hs : itemToString cur = itemToString x) (hle : x.startAt ≤ cur.endAt) :
    unfragInner cur (x :: xs) =
      unfragInner {cur with endAt := if cur.endAt < x.endAt then x.endAt else cur.endAt} xs := by
  simp only [unfragInner]
  rw [if_pos ⟨hs, hle⟩]

/-- C5: fragmenting a single item `[0, 6000)` carrying one line of any
fixed text with window 2000 produces the three touching fragments
`[0,2000) [2000,4000) [4000,6000)` with the same rendered text, and
`unfragment` merges them back into exactly the original item — it is a left
inverse of `fragment` here. -/
theorem C5_unfragment_fragment (t : Str) :
    (unfragment (fragment (subsOf [itemT 0 6000 t]) 2000)).items = [itemT 0 6000 t] := by
  have hstr : ∀ a b c d : ℤ, itemToString (itemT a b t) = itemToString (itemT c d t) :=
    fun _ _ _ _ => rfl
  have hi1 : unfragInner (itemT 0 4000 t) [itemT 4000 6000 t] = (itemT 0 6000 t, []) := by
    rw [unfragInner_cons_merge (hstr 0 4000 4000 6000) (le_refl 4000)]
    rfl
  have hi0 : unfragInner (itemT 0 2000 t) [itemT 2000 4000 t, itemT 4000 6000 t] =
      (itemT 0 6000 t, []) := by
    rw [unfragInner_cons_merge (hstr 0 2000 2000 4000) (le_refl 2000)]
    exact hi1
  have h1 : fragment (subsOf [itemT 0 6000 t]) 2000 =
      fragmentCore (subsOf [itemT 0 6000 t]) 2000 6000 := rfl
  have h2 : fragmentCore (subsOf [itemT 0 6000 t]) 2000 6000 =
      subsOf [itemT 0 2000 t, itemT 2000 4000 t, itemT 4000 6000 t] := rfl
  rw [h1, h2]
  show unfragOuter 3 [itemT 0 2000 t, itemT 2000 4000 t, itemT 4000 6000 t] =
    [itemT 0 6000 t]
  rw [show (3 : ℕ) = 2 + 1 from rfl]
  simp only [unfragOuter, hi0]

/-! ### The duration round trip for three millisecond digits -/

/-- Floor division of natural casts is natural division. -/
theorem int_fdiv_natCast (a b : ℕ) : Int.fdiv (a : ℤ) (b : ℤ) = ((a / b : ℕ) : ℤ) := by
  cases a with
  | zero =>
    show Int.fdiv (Int.ofNat 0) (Int.ofNat b) = Int.ofNat (0 / b)
    rw [Nat.zero_div]
    rfl
  | succ a =>
    show Int.fdiv (Int.ofNat (a + 1)) (Int.ofNat b) = Int.ofNat ((a + 1) / b)
    rfl

/-- JavaScript `%` on natural casts is the natural remainder. -/
theorem int_tmod_natCast (a b : ℕ) : Int.tmod (a : ℤ) (b : ℤ) = ((a % b : ℕ) : ℤ) := by
  cases a with
  | zero =>
    show Int.tmod (Int.ofNat 0) (Int.ofNat b) = Int.ofNat (0 % b)
    rw [Nat.zero_mod]
    rfl
  | succ a =>
    show Int.tmod (Int.ofNat (a + 1)) (Int.ofNat b) = Int.ofNat ((a + 1) % b)
    rfl

/-- Rendering a natural cast yields its digits. -/
theorem intToChars_natCast (n : ℕ) : intToChars (n : ℤ) = natDigits n := by
  unfold intToChars
  rw [if_neg (by omega), Int.toNat_natCast]

/-- Every character produced by `natDigitsAux` is a decimal digit. -/
theorem natDigitsAux_mem : ∀ (fuel n : ℕ), ∀ c ∈ natDigitsAux fuel n,
    ∃ k, k < 10 ∧ c = Char.ofNat (48 + k) := by
  intro fuel
  induction fuel with
  | zero => intro n c hc; simp [natDigitsAux] at hc
  | succ fuel ih =>
    intro n c hc
    unfold natDigitsAux at hc
    split at hc
    · rename_i hlt
      simp only [List.mem_singleton] at hc
      exact ⟨n, hlt, hc⟩
    · rw [List.mem_append] at hc
      rcases hc with hc | hc
      · exact ih _ c hc
      · simp only [List.mem_singleton] at hc
        exact ⟨n % 10, Nat.mod_lt _ (by norm_num), hc⟩

/-- With positive fuel `natDigitsAux` is never empty. -/
theorem natDigitsAux_ne_nil (fuel n : ℕ) (h : 1 ≤ fuel) : natDigitsAux fuel n ≠ [] := by
  cases fuel with
  | zero => omega
  | succ fuel =>
    unfold natDigitsAux
    split
    · simp
    · simp

/-- A digit list for `n < 10^(k+1)` has at most `k+1` digits. -/
theorem natDigitsAux_length : ∀ (fuel n k : ℕ), n < 10 ^ (k + 1) →
    (natDigitsAux fuel n).length ≤ k + 1 := by
  intro fuel
  induction fuel with
  | zero => intro n k _; simp [natDigitsAux]
  | succ fuel ih =>
    intro n k hn
    unfold natDigitsAux
    split
    · simp
    · rename_i hge
      cases k with
      | zero => omega
      | succ k =>
        rw [List.length_append]
        have hdiv : n / 10 < 10 ^ (k + 1) := by
          rw [Nat.div_lt_iff_lt_mul (by norm_num)]
          calc n < 10 ^ (k + 1 + 1) := hn
          _ = 10 ^ (k + 1) * 10 := by ring
        have := ih (n / 10) k hdiv
        simp only [List.length_singleton]
        omega

/-- A member of a zero-padded string is the pad or from the string. -/
theorem padStart_mem {k : ℕ} {c0 : Char} {s : Str} {c : Char}
    (h : c ∈ padStart k c0 s) : c = c0 ∨ c ∈ s := by
  unfold padStart at h
  rw [List.mem_append] at h
  rcases h with h | h
  · exact Or.inl (List.eq_of_mem_replicate h)
  · exact Or.inr h

/-- Every character of a zero-padded digit string is a decimal digit. -/
theorem mem_pad_natDigits {j n : ℕ} {c : Char}
    (h : c ∈ padStart j '0' (natDigits n)) : ∃ k, k < 10 ∧ c = Char.ofNat (48 + k) := by
  rcases padStart_mem h with rfl | h
  · exact ⟨0, by norm_num, by decide⟩
  · exact natDigitsAux_mem _ _ c h

/-- The length of a padded digit string for `n < 1000` is exactly 3. -/
theorem pad3_length {n : ℕ} (h : n < 1000) :
    (padStart 3 '0' (natDigits n)).length = 3 := by
  have := natDigitsAux_length (n + 1) n 2 (by omega)
  unfold padStart natDigits
  rw [List.length_append, List.length_replicate]
  omega

/-- Dropping while a predicate holds is the identity when no element satisfies it. -/
theorem dropWhile_eq_self_of_false {p : Char → Bool} :
    ∀ {s : Str}, (∀ c ∈ s, p c = false) → s.dropWhile p = s := by
  intro s h
  cases s with
  | nil => rfl
  | cons c cs =>
    rw [List.dropWhile_cons, if_neg]
    simp [h c (List.mem_cons_self c cs)]

/-- Taking while a predicate holds is the identity when every element satisfies the
predicate. -/
theorem takeWhile_eq_self_of_true {p : Char → Bool} :
    ∀ {s : Str}, (∀ c ∈ s, p c = true) → s.takeWhile p = s := by
  intro s h
  induction s with
  | nil => rfl
  | cons c cs ih =>
    rw [List.takeWhile_cons, if_pos (h c (List.mem_cons_self c cs))]
    rw [ih (fun x hx => h x (List.mem_cons_of_mem c hx))]

/-- Trimming is the identity on whitespace-free strings. -/
theorem jsTrim_eq_self {s : Str} (h : ∀ c ∈ s, isJsSpace c = false) : jsTrim s = s := by
  unfold jsTrim
  rw [dropWhile_eq_self_of_false h,
    dropWhile_eq_self_of_false (fun c hc => h c (List.mem_reverse.mp hc)),
    List.reverse_reverse]

/-- Decimal digits are not JavaScript whitespace. -/
theorem digit_not_space : ∀ k < 10, isJsSpace (Char.ofNat (48 + k)) = false := by decide

/-- Decimal digits have their expected code points. -/
theorem digit_toNat : ∀ k < 10, (Char.ofNat (48 + k)).toNat = 48 + k := by decide

/-- Decimal digits satisfy `isDigit`. -/
theorem digit_isDigit : ∀ k < 10, Char.isDigit (Char.ofNat (48 + k)) = true := by decide

/-- The defining equation of `splitOnChar` on a cons cell. -/
theorem splitOnChar_cons (sep c : Char) (cs : Str) :
    splitOnChar sep (c :: cs) =
      if c = sep then [] :: splitOnChar sep cs
      else
        match splitOnChar sep cs with
        | [] => [[c]]
        | l :: ls => (c :: l) :: ls := rfl

/-- Splitting a separator-free string yields that one segment. -/
theorem splitOnChar_of_not_mem {sep : Char} : ∀ {s : Str}, sep ∉ s →
    splitOnChar sep s = [s] := by
  intro s h
  induction s with
  | nil => rfl
  | cons c cs ih =>
    have hne : ¬c = sep := by
      intro hc
      subst hc
      exact h (List.mem_cons_self c cs)
    rw [splitOnChar_cons, if_neg hne, ih (fun hc => h (List.mem_cons_of_mem c hc))]

/-- Splitting past a separator-free prefix emits that prefix as the first
segment. -/
theorem splitOnChar_append {sep : Char} :
    ∀ {A : Str} (B : Str), sep ∉ A →
      splitOnChar sep (A ++ sep :: B) = A :: splitOnChar sep B := by
  intro A
  induction A with
  | nil =>
    intro B _
    show splitOnChar sep (sep :: B) = [] :: splitOnChar sep B
    rw [splitOnChar_cons, if_pos rfl]
  | cons c A ih =>
    intro B h
    have hne : ¬c = sep := by
      intro hc
      subst hc
      exact h (List.mem_cons_self c A)
    show splitOnChar sep (c :: (A ++ sep :: B)) = (c :: A) :: splitOnChar sep B
    rw [splitOnChar_cons, if_neg hne, ih B (fun hc => h (List.mem_cons_of_mem c hc))]

/-- Folding the digit accumulator over one appended digit. -/
theorem charsVal_append_digit (xs : Str) (c : Char) :
    charsVal (xs ++ [c]) = 10 * charsVal xs + (c.toNat - 48) := by
  unfold charsVal
  rw [List.foldl_append]
  rfl

/-- A leading zero does not change the digit value. -/
theorem charsVal_cons_zero (L : Str) : charsVal ('0' :: L) = charsVal L := by
  show List.foldl (fun a c => 10 * a + (c.toNat - 48)) (10 * 0 + ('0'.toNat - 48)) L =
    List.foldl (fun a c => 10 * a + (c.toNat - 48)) 0 L
  have ha : 10 * 0 + ('0'.toNat - 48) = 0 := by decide
  rw [ha]

/-- Leading zeros do not change the digit value. -/
theorem charsVal_replicate_zero (z : ℕ) (s : Str) :
    charsVal (List.replicate z '0' ++ s) = charsVal s := by
  induction z with
  | zero => rfl
  | succ z ih =>
    have hstep : List.replicate (z + 1) '0' ++ s = '0' :: (List.replicate z '0' ++ s) := by
      simp [List.replicate_succ]
    rw [hstep, charsVal_cons_zero, ih]

/-- The digit string of `n` evaluates back to `n` (with enough fuel). -/
theorem charsVal_natDigitsAux : ∀ (fuel n : ℕ), n < 10 ^ fuel →
    charsVal (natDigitsAux fuel n) = n := by
  intro fuel
  induction fuel with
  | zero => intro n h; interval_cases n; rfl
  | succ fuel ih =>
    intro n h
    unfold natDigitsAux
    split
    · rename_i hlt
      show 10 * 0 + ((Char.ofNat (48 + n)).toNat - 48) = n
      rw [digit_toNat n hlt]
      omega
    · rename_i hge
      rw [charsVal_append_digit, digit_toNat (n % 10) (Nat.mod_lt _ (by norm_num))]
      have hdiv : n / 10 < 10 ^ fuel := by
        rw [Nat.div_lt_iff_lt_mul (by norm_num)]
        calc n < 10 ^ (fuel + 1) := h
        _ = 10 ^ fuel * 10 := by ring
      rw [ih (n / 10) hdiv]
      omega

/-- Evaluating the digit string of a number recovers it. -/
theorem charsVal_natDigits (n : ℕ) : charsVal (natDigits n) = n :=
  charsVal_natDigitsAux (n + 1) n
    (lt_of_lt_of_le (Nat.lt_pow_self (by norm_num) n) (Nat.pow_le_pow_right (by norm_num) (by omega)))

/-- The digit value of a zero-padded digit string. -/
theorem charsVal_pad_natDigits (j n : ℕ) : charsVal (padStart j '0' (natDigits n)) = n := by
  unfold padStart
  rw [charsVal_replicate_zero, charsVal_natDigits]

/-- The digit phase of `parseInt` consumes an all-digit string entirely. -/
theorem parseLeadingDigits_all_digits {s : Str} (hne : s ≠ [])
    (hdig : ∀ c ∈ s, ∃ k, k < 10 ∧ c = Char.ofNat (48 + k)) :
    parseLeadingDigits s = some (charsVal s) := by
  unfold parseLeadingDigits
  rw [takeWhile_eq_self_of_true]
  · simp only [List.isEmpty_iff]
    rw [if_neg hne]
  · intro c hc
    obtain ⟨k, hk, rfl⟩ := hdig c hc
    exact digit_isDigit k hk

/-- Parsing a non-empty all-digit string gives its decimal value. -/
theorem jsParseInt_all_digits {s : Str} (hne : s ≠ [])
    (hdig : ∀ c ∈ s, ∃ k, k < 10 ∧ c = Char.ofNat (48 + k)) :
    jsParseInt s = some ((charsVal s : ℕ) : ℤ) := by
  obtain ⟨c, cs, rfl⟩ : ∃ c cs, s = c :: cs := by
    cases s with
    | nil => exact absurd rfl hne
    | cons c cs => exact ⟨c, cs, rfl⟩
  obtain ⟨k, hk, hc⟩ := hdig c (List.mem_cons_self c cs)
  have hdrop : (c :: cs).dropWhile isJsSpace = c :: cs := by
    refine dropWhile_eq_self_of_false ?_
    intro x hx
    obtain ⟨j, hj, rfl⟩ := hdig x hx
    exact digit_not_space j hj
  unfold jsParseInt
  rw [hdrop]
  change (if c = '-' then _ else _) = _
  have hne1 : c ≠ '-' := by
    subst hc
    intro hcon
    have := digit_toNat k hk
    rw [hcon] at this
    simp at this
    omega
  have hne2 : c ≠ '+' := by
    subst hc
    intro hcon
    have := digit_toNat k hk
    rw [hcon] at this
    simp at this
    omega
  rw [if_neg hne1, if_neg hne2,
    parseLeadingDigits_all_digits (List.cons_ne_nil c cs) hdig]
  rfl

/-- The colon is not a decimal digit. -/
theorem colon_not_digit : ∀ k < 10, ¬(':' : Char) = Char.ofNat (48 + k) := by decide

/-- The colon is not JavaScript whitespace. -/
theorem colon_not_space : isJsSpace ':' = false := by decide

/-- The millisecond phase of the parse on a two-segment split whose last
segment is a padded digit string of `ms < 1000`: the segment is consumed
whole and scaled by `10^(3-3) = 1`. -/
theorem parseMsSegment_pad (T : Str) (ms : ℕ) (hms : ms < 1000) (sep : Char) :
    parseMsSegment [T, padStart 3 '0' (natDigits ms)] sep 3 =
      Except.ok (some ((ms : ℕ) : ℤ), T) := by
  have hdMS : ∀ c ∈ padStart 3 '0' (natDigits ms), ∃ k, k < 10 ∧ c = Char.ofNat (48 + k) :=
    fun c hc => mem_pad_natDigits hc
  have hspMS : ∀ c ∈ padStart 3 '0' (natDigits ms), isJsSpace c = false := by
    intro c hc
    obtain ⟨k, hk, rfl⟩ := hdMS c hc
    exact digit_not_space k hk
  have hlen3 : (padStart 3 '0' (natDigits ms)).length = 3 := pad3_length hms
  have hne : padStart 3 '0' (natDigits ms) ≠ [] := by
    intro hni
    rw [hni] at hlen3
    simp at hlen3
  have hgl : (([T, padStart 3 '0' (natDigits ms)] : List Str).getLast?.getD []) =
      padStart 3 '0' (natDigits ms) := rfl
  unfold parseMsSegment
  rw [hgl, jsTrim_eq_self hspMS]
  change (if List.length (padStart 3 '0' (natDigits ms)) > 3 then _ else _) = _
  rw [hlen3, if_neg (by norm_num)]
  rw [jsParseInt_all_digits hne hdMS, charsVal_pad_natDigits]
  show Except.ok (some ((ms : ℤ) * 10 ^ (3 - 3)), joinWithChar sep [T]) =
    Except.ok (some ((ms : ℕ) : ℤ), T)
  rw [show ((ms : ℤ) * 10 ^ (3 - 3)) = ((ms : ℕ) : ℤ) from by norm_num]
  rfl

/-- The time phase of the parse on three padded digit segments. -/
theorem parseTimeParts_pad (h m s : ℕ) (milliseconds : Option ℤ) :
    parseTimeParts [padStart 2 '0' (natDigits h), padStart 2 '0' (natDigits m),
        padStart 2 '0' (natDigits s)] milliseconds =
      Except.ok (some ((h : ℕ) : ℤ), some ((m : ℕ) : ℤ), some ((s : ℕ) : ℤ), milliseconds) := by
  have key : ∀ n : ℕ, jsParseInt (jsTrim (padStart 2 '0' (natDigits n))) = some ((n : ℕ) : ℤ) := by
    intro n
    have hd : ∀ c ∈ padStart 2 '0' (natDigits n), ∃ k, k < 10 ∧ c = Char.ofNat (48 + k) :=
      fun c hc => mem_pad_natDigits hc
    have hsp : ∀ c ∈ padStart 2 '0' (natDigits n), isJsSpace c = false := by
      intro c hc
      obtain ⟨k, hk, rfl⟩ := hd c hc
      exact digit_not_space k hk
    have hne : padStart 2 '0' (natDigits n) ≠ [] := by
      unfold padStart
      intro hni
      have := natDigitsAux_ne_nil (n + 1) n (by omega)
      unfold natDigits at this
      rcases List.append_eq_nil.mp hni with ⟨_, h2⟩
      exact this h2
    rw [jsTrim_eq_self hsp, jsParseInt_all_digits hne hd, charsVal_pad_natDigits]
  unfold parseTimeParts
  rw [if_neg (by simp), if_pos (by simp)]
  show Except.ok (jsParseInt (jsTrim (padStart 2 '0' (natDigits h))),
    jsParseInt (jsTrim (padStart 2 '0' (natDigits m))),
    jsParseInt (jsTrim (padStart 2 '0' (natDigits s))), milliseconds) = _
  rw [key h, key m, key s]

/-- The full parse of a formatted `h:m:s sep ms` string. -/
theorem parseDuration_concat (h m s ms : ℕ) (hms : ms < 1000) (sep : Char)
    (hs10 : ∀ k, k < 10 → ¬sep = Char.ofNat (48 + k)) (hscolon : sep ≠ ':') :
    parseDuration (padStart 2 '0' (natDigits h) ++ ':' ::
        padStart 2 '0' (natDigits m) ++ ':' ::
        padStart 2 '0' (natDigits s) ++ sep :: padStart 3 '0' (natDigits ms)) sep 3 =
      Except.ok (some ((ms : ℤ) + (s : ℤ) * 1000 + (m : ℤ) * 60 * 1000 +
        (h : ℤ) * 60 * 60 * 1000)) := by
  have hdig : ∀ (j n : ℕ), ∀ c ∈ padStart j '0' (natDigits n),
      ∃ k, k < 10 ∧ c = Char.ofNat (48 + k) := fun j n c hc => mem_pad_natDigits hc
  have hsepPad : ∀ (j n : ℕ), sep ∉ padStart j '0' (natDigits n) := by
    intro j n hmem
    obtain ⟨k, hk, he⟩ := hdig j n sep hmem
    exact hs10 k hk he
  have hcolonPad : ∀ (j n : ℕ), (':' : Char) ∉ padStart j '0' (natDigits n) := by
    intro j n hmem
    obtain ⟨k, hk, he⟩ := hdig j n (':' : Char) hmem
    exact colon_not_digit k hk he
  have hspPad : ∀ (j n : ℕ), ∀ c ∈ padStart j '0' (natDigits n), isJsSpace c = false := by
    intro j n c hc
    obtain ⟨k, hk, rfl⟩ := hdig j n c hc
    exact digit_not_space k hk
  have hsepT : sep ∉ padStart 2 '0' (natDigits h) ++ ':' ::
      (padStart 2 '0' (natDigits m) ++ ':' :: padStart 2 '0' (natDigits s)) := by
    intro hmem
    simp only [List.mem_append, List.mem_cons] at hmem
    rcases hmem with h1 | h1 | h1 | h1 | h1
    · exact hsepPad 2 h h1
    · exact hscolon h1
    · exact hsepPad 2 m h1
    · exact hscolon h1
    · exact hsepPad 2 s h1
  have hspT : ∀ c ∈ padStart 2 '0' (natDigits h) ++ ':' ::
      (padStart 2 '0' (natDigits m) ++ ':' :: padStart 2 '0' (natDigits s)),
      isJsSpace c = false := by
    intro c hc
    simp only [List.mem_append, List.mem_cons] at hc
    rcases hc with h1 | h1 | h1 | h1 | h1
    · exact hspPad 2 h c h1
    · rw [h1]; exact colon_not_space
    · exact hspPad 2 m c h1
    · rw [h1]; exact colon_not_space
    · exact hspPad 2 s c h1
  have hgroup : padStart 2 '0' (natDigits h) ++ ':' ::
      padStart 2 '0' (natDigits m) ++ ':' ::
      padStart 2 '0' (natDigits s) ++ sep :: padStart 3 '0' (natDigits ms) =
      (padStart 2 '0' (natDigits h) ++ ':' ::
        (padStart 2 '0' (natDigits m) ++ ':' :: padStart 2 '0' (natDigits s))) ++
        sep :: padStart 3 '0' (natDigits ms) := by
    simp [List.append_assoc]
  have hsplit : splitOnChar sep ((padStart 2 '0' (natDigits h) ++ ':' ::
      (padStart 2 '0' (natDigits m) ++ ':' :: padStart 2 '0' (natDigits s))) ++
      sep :: padStart 3 '0' (natDigits ms)) =
      [padStart 2 '0' (natDigits h) ++ ':' ::
        (padStart 2 '0' (natDigits m) ++ ':' :: padStart 2 '0' (natDigits s)),
       padStart 3 '0' (natDigits ms)] := by
    rw [splitOnChar_append _ hsepT, splitOnChar_of_not_mem (hsepPad 3 ms)]
  have hsplitT : splitOnChar ':' (padStart 2 '0' (natDigits h) ++ ':' ::
      (padStart 2 '0' (natDigits m) ++ ':' :: padStart 2 '0' (natDigits s))) =
      [padStart 2 '0' (natDigits h), padStart 2 '0' (natDigits m),
       padStart 2 '0' (natDigits s)] := by
    rw [splitOnChar_append _ (hcolonPad 2 h), splitOnChar_append _ (hcolonPad 2 m),
      splitOnChar_of_not_mem (hcolonPad 2 s)]
  rw [hgroup]
  unfold parseDuration
  rw [hsplit]
  unfold parseDurationParts
  rw [if_pos (by norm_num), parseMsSegment_pad _ ms hms sep]
  show (match parseTimeParts (splitOnChar ':' (jsTrim (padStart 2 '0' (natDigits h) ++ ':' ::
      (padStart 2 '0' (natDigits m) ++ ':' :: padStart 2 '0' (natDigits s)))))
      (some ((ms : ℕ) : ℤ)) with
    | .error e => Except.error e
    | .ok hms2 => combineDuration hms2) = _
  rw [jsTrim_eq_self hspT, hsplitT, parseTimeParts_pad h m s (some ((ms : ℕ) : ℤ))]
  rfl

/-- Formatting a non-negative integer with three millisecond
digits renders the zero-padded decimal components joined by `:` and the
separator. -/
theorem formatDuration_natCast (d : ℕ) (sep : Char) :
    formatDuration (d : ℤ) sep 3 =
      padStart 2 '0' (natDigits (d / 3600000)) ++ ':' ::
      padStart 2 '0' (natDigits (d % 3600000 / 60000)) ++ ':' ::
      padStart 2 '0' (natDigits (d % 60000 / 1000)) ++ sep ::
      padStart 3 '0' (natDigits (d % 1000)) := by
  unfold formatDuration
  have e4 : ((10 : ℤ) ^ (3 - 3 : ℕ)) = 1 := by norm_num
  have e1 : (60 * 60 * 1000 : ℤ) = ((3600000 : ℕ) : ℤ) := by norm_num
  have e2 : (60 * 1000 : ℤ) = ((60000 : ℕ) : ℤ) := by norm_num
  have e3 : (1000 : ℤ) = ((1000 : ℕ) : ℤ) := by norm_num
  rw [e4, e1, e2, e3]
  simp only [int_fdiv_natCast, int_tmod_natCast, Int.fdiv_one, intToChars_natCast]

/-- C1 amended: the duration codec inverse law holds for three configured
millisecond digits — for every `d < 24*3600*1000` and separator `,` or
`.`, `parseDuration(formatDuration(d, sep, 3), sep, 3)` returns exactly
`d`.  (For two configured digits the law fails; see the counterexample.) -/
theorem C1_roundtrip_three_digits (d : ℕ) (hd : d < 24 * 3600 * 1000) (sep : Char)
    (hsep : sep = ',' ∨ sep = '.') :
    parseDuration (formatDuration (d : ℤ) sep 3) sep 3 = Except.ok (some (d : ℤ)) := by
  have hs10 : ∀ k, k < 10 → ¬sep = Char.ofNat (48 + k) := by
    rcases hsep with rfl | rfl <;> decide
  have hscolon : sep ≠ ':' := by
    rcases hsep with rfl | rfl <;> decide
  rw [formatDuration_natCast, parseDuration_concat (d / 3600000) (d % 3600000 / 60000)
    (d % 60000 / 1000) (d % 1000) (by omega) sep hs10 hscolon]
  congr 2
  omega

/-- C1 witness. -/
theorem C1_roundtrip_witness :
    parseDuration (formatDuration ((3723004 : ℕ) : ℤ) ',' 3) ',' 3 =
      Except.ok (some ((3723004 : ℕ) : ℤ)) :=
  C1_roundtrip_three_digits 3723004 (by norm_num) ',' (Or.inl rfl)
